import Mathlib

/-!
Verification of `flow_log_parser.py`: a shallow embedding of its loaders,
line parser, aggregator and report writer, together with theorems settling
the specification's claims.

Files are modelled at the natural boundary of the Python code: CSV files as
lists of already-split rows (`List (List String)`), the flow log as a list
of lines (`List String`).  Dictionaries are association lists with Python's
insertion-order update semantics.  Fallible loaders return `Except Nat`
where the error value is the process exit status produced by the loader's
catch-all handler.
-/

namespace FlowLogParser

/-- Python `str.strip()` whitespace class (ASCII). -/
def pyIsSpace (c : Char) : Bool :=
  c = ' ' || c = '\t' || c = '\n' || c = '\r' || c = Char.ofNat 11 || c = Char.ofNat 12

/-- Python `str.strip()`: drop leading and trailing whitespace. -/
def pyStrip (s : String) : String :=
  String.mk (((s.data.dropWhile pyIsSpace).reverse.dropWhile pyIsSpace).reverse)

/-- ASCII lowercasing of one character, as Python `str.lower()` does on ASCII. -/
def pyLowerChar (c : Char) : Char :=
  if 'A' ≤ c && c ≤ 'Z' then Char.ofNat (c.toNat + 32) else c

/-- Python `str.lower()` (ASCII). -/
def pyLower (s : String) : String :=
  String.mk (s.data.map pyLowerChar)

/-- Python `str.split()` with no argument: split on runs of whitespace,
dropping empty fields.  `acc` holds the current field, reversed. -/
def splitWsChars : List Char → List Char → List String
  | [], [] => []
  | [], acc => [String.mk acc.reverse]
  | c :: rest, acc =>
    if pyIsSpace c then
      match acc with
      | [] => splitWsChars rest []
      | _ => String.mk acc.reverse :: splitWsChars rest []
    else splitWsChars rest (c :: acc)

/-- Python `str.split()` with no argument. -/
def splitWs (s : String) : List String :=
  splitWsChars s.data []

/-- Value of a digit run that may contain single underscores between digits
(Python 3 `int` literal groups); `acc` is the value read so far.  An
underscore must be followed by a digit, so no trailing or doubled
underscore is accepted. -/
def digitsUAux : List Char → Nat → Option Nat
  | [], acc => some acc
  | c :: rest, acc =>
    if c.isDigit then digitsUAux rest (acc * 10 + (c.toNat - 48))
    else if c = '_' then
      match rest with
      | c2 :: rest2 =>
        if c2.isDigit then digitsUAux rest2 ((acc * 10 + (c2.toNat - 48))) else none
      | [] => none
    else none

/-- Parse a nonempty digit run (with optional grouping underscores); the
first character must be a digit. -/
def digitsVal : List Char → Option Nat
  | [] => none
  | c :: rest => if c.isDigit then digitsUAux rest (c.toNat - 48) else none

/-- Python `int(s)`: strip whitespace, optional sign, decimal digits with
optional single grouping underscores.  `none` models `ValueError`. -/
def pyInt (s : String) : Option Int :=
  match (pyStrip s).data with
  | '+' :: rest => (digitsVal rest).map Int.ofNat
  | '-' :: rest => (digitsVal rest).map (fun n => -(n : Int))
  | cs => (digitsVal cs).map Int.ofNat

/-- Association-list dictionary lookup: Python `d.get(k)` / `k in d`. -/
def dfind {K V : Type} [DecidableEq K] : List (K × V) → K → Option V
  | [], _ => none
  | (k', v') :: rest, k => if k' = k then some v' else dfind rest k

/-- Association-list dictionary update: Python `d[k] = v`.  An existing key
keeps its position (Python dicts preserve insertion order); a new key is
appended at the end. -/
def dinsert {K V : Type} [DecidableEq K] : List (K × V) → K → V → List (K × V)
  | [], k, v => [(k, v)]
  | (k', v') :: rest, k, v =>
    if k' = k then (k, v) :: rest else (k', v') :: dinsert rest k v

/-- `defaultdict(int)` increment: `d[k] += 1`. -/
def dincr {K : Type} [DecidableEq K] (d : List (K × Nat)) (k : K) : List (K × Nat) :=
  dinsert d k ((dfind d k).getD 0 + 1)

/-- Sum of all values of a count dictionary. -/
def sumValues {K : Type} (d : List (K × Nat)) : Nat :=
  (d.map Prod.snd).sum

/-- The Lookup Table: protocol name → (port → tag), as built by
`load_lookup_table`'s `defaultdict(dict)`. -/
abbrev Lookup : Type := List (String × List (Int × String))

/-- The Protocol Map: protocol number → protocol name. -/
abbrev ProtoMap : Type := List (Int × String)

/-- One iteration of `load_lookup_table`'s row loop.  Rows with fewer than
three fields are skipped; the unpacking `port_str, protocol, tag = row`
raises `ValueError` on a row with more than three fields, which escapes the
loop to the catch-all handler (`sys.exit(1)`, modelled as `.error 1`);
rows whose port fails `int` parsing are skipped; otherwise
`lookup[protocol][port] = tag` with protocol stripped and lowercased and
tag stripped. -/
def processLookupRow (m : Lookup) (row : List String) : Except Nat Lookup :=
  if row.length < 3 then .ok m
  else
    match row with
    | [port_str, protocol, tag] =>
      match pyInt (pyStrip port_str) with
      | none => .ok m
      | some port =>
        let prot := pyLower (pyStrip protocol)
        .ok (dinsert m prot (dinsert ((dfind m prot).getD []) port (pyStrip tag)))
    | _ => .error 1

/-- The row loop of `load_lookup_table`, threading the table through
`processLookupRow` and propagating the fatal unpacking error. -/
def processLookupRows (m : Lookup) : List (List String) → Except Nat Lookup
  | [] => .ok m
  | row :: rest =>
    match processLookupRow m row with
    | .error e => .error e
    | .ok m2 => processLookupRows m2 rest

/-- `load_lookup_table`, on the file's CSV rows.  `next(reader)` on an
empty file raises `StopIteration`, and `headers[0]` on an empty first row
raises `IndexError`; both are caught by the catch-all and exit with status
1 (`.error 1`).  If the first row's first field is not `"dstport"`
case-insensitively, the reader is rewound (`seek(0)`) and the first row is
processed as data; otherwise the header row is discarded. -/
def load_lookup_table (rows : List (List String)) : Except Nat Lookup :=
  match rows with
  | [] => .error 1
  | headers :: rest =>
    match headers.head? with
    | none => .error 1
    | some f0 =>
      if pyLower f0 = "dstport" then processLookupRows [] rest
      else processLookupRows [] (headers :: rest)

/-- One iteration of `load_protocal_map`'s row loop: rows with fewer than
two fields are skipped, as are rows whose first field fails `int` parsing;
otherwise `protocol_map[decimal] = keyword.strip().lower()`.  Indexing
`row[0], row[1]` tolerates extra trailing fields. -/
def processProtoRow (m : ProtoMap) (row : List String) : ProtoMap :=
  if row.length < 2 then m
  else
    match pyInt (pyStrip (row.getD 0 "")) with
    | none => m
    | some decimal => dinsert m decimal (pyLower (pyStrip (row.getD 1 "")))

/-- `load_protocal_map` (source spelling), on the file's CSV rows.
`next(reader)` on an empty file raises `StopIteration`, caught by the
catch-all handler which exits with status 1 (`.error 1`); otherwise the
first row is discarded unconditionally and the rest are folded. -/
def load_protocal_map (rows : List (List String)) : Except Nat ProtoMap :=
  match rows with
  | [] => .error 1
  | _ :: rest => .ok (rest.foldl processProtoRow [])

/-- `parse_flow_log_line`: strip the line; skip it when empty or a `#`
comment; split on whitespace; skip when fewer than 14 fields; parse
`fields[6]` (dstport) and `fields[7]` (protocol number) as integers,
skipping on failure; resolve the protocol name via the map with the
decimal string as fallback, lowercased. -/
def parse_flow_log_line (line : String) (protocol_map : ProtoMap) :
    Option (Int × String) :=
  let l := pyStrip line
  if l = "" then none
  else if l.data.head? = some '#' then none
  else
    let fields := splitWs l
    if fields.length < 14 then none
    else
      match pyInt (fields.getD 6 ""), pyInt (fields.getD 7 "") with
      | some dstport, some protocol_number =>
        some (dstport, pyLower ((dfind protocol_map protocol_number).getD
          (toString protocol_number)))
      | _, _ => none

/-- The tag chosen by the aggregator for one record:
`lookup_table.get(protocol_name, {}).get(dstport, 'Untagged')`. -/
def tagOf (lookup_table : Lookup) (protocol_name : String) (dstport : Int) : String :=
  (dfind ((dfind lookup_table protocol_name).getD []) dstport).getD "Untagged"

/-- One iteration of `process_flow_log`'s line loop over the state
`(tag_counts, port_protocol_counts)`. -/
def stepLine (lookup_table : Lookup) (protocol_map : ProtoMap)
    (st : List (String × Nat) × List ((Int × String) × Nat)) (line : String) :
    List (String × Nat) × List ((Int × String) × Nat) :=
  match parse_flow_log_line line protocol_map with
  | none => st
  | some (dstport, protocol_name) =>
    (dincr st.1 (tagOf lookup_table protocol_name dstport),
     dincr st.2 (dstport, protocol_name))

/-- `process_flow_log`, on the log file's lines: fold the per-line step
over empty count dictionaries. -/
def process_flow_log (lines : List String) (protocol_map : ProtoMap)
    (lookup_table : Lookup) :
    List (String × Nat) × List ((Int × String) × Nat) :=
  lines.foldl (stepLine lookup_table protocol_map) ([], [])

/-- Sort order of the tag section: `key=lambda x: x[0].lower()`, a stable
sort by the lowercased tag. -/
def tagLe (a b : String × Nat) : Bool :=
  decide (pyLower a.1 ≤ pyLower b.1)

/-- Sort order of the port/protocol section:
`key=lambda x: (x[0][0], x[0][1])`, port then protocol as a string. -/
def ppLe (a b : (Int × String) × Nat) : Bool :=
  decide (a.1.1 < b.1.1 ∨ (a.1.1 = b.1.1 ∧ a.1.2 ≤ b.1.2))

/-- `write_output`, modelled as the list of lines written to the output
file (the blank line separating the sections is the empty string). -/
def write_output (tag_counts : List (String × Nat))
    (port_protocol_counts : List ((Int × String) × Nat)) : List String :=
  ["Tag Counts:", "Tag, Count"]
  ++ (tag_counts.mergeSort tagLe).map (fun x => x.1 ++ "," ++ toString x.2)
  ++ [""]
  ++ ["Port/Protocol Combination Counts:", "Port,Protocol,Count"]
  ++ (port_protocol_counts.mergeSort ppLe).map
      (fun x => toString x.1.1 ++ "," ++ x.1.2 ++ "," ++ toString x.2)

/-! ## Dictionary lemmas -/

/-- `d2` differs from `d` in exactly one entry, which was incremented by one
(a missing key counting as 0). -/
def IncrOne {K : Type} [DecidableEq K] (d d2 : List (K × Nat)) : Prop :=
  ∃ k, dfind d2 k = some ((dfind d k).getD 0 + 1) ∧
    ∀ k2, k2 ≠ k → dfind d2 k2 = dfind d k2

theorem dfind_dinsert_self {K V : Type} [DecidableEq K]
    (d : List (K × V)) (k : K) (v : V) : dfind (dinsert d k v) k = some v := by
  induction d with
  | nil => simp [dinsert, dfind]
  | cons hd tl ih =>
    obtain ⟨k', v'⟩ := hd
    by_cases h : k' = k
    · simp [dinsert, h, dfind]
    · simp [dinsert, h, dfind, ih]

theorem dfind_dinsert_ne {K V : Type} [DecidableEq K]
    (d : List (K × V)) (k k2 : K) (v : V) (h : k2 ≠ k) :
    dfind (dinsert d k v) k2 = dfind d k2 := by
  induction d with
  | nil => simp [dinsert, dfind, Ne.symm h]
  | cons hd tl ih =>
    obtain ⟨k', v'⟩ := hd
    by_cases h1 : k' = k
    · subst h1
      simp [dinsert, dfind, Ne.symm h]
    · by_cases h2 : k' = k2 <;> simp [dinsert, dfind, h1, h2, ih, h]

theorem incrOne_dincr {K : Type} [DecidableEq K] (d : List (K × Nat)) (k : K) :
    IncrOne d (dincr d k) :=
  ⟨k, dfind_dinsert_self d k _, fun k2 h => dfind_dinsert_ne d k k2 _ h⟩

theorem sumValues_dincr {K : Type} [DecidableEq K] (d : List (K × Nat)) (k : K) :
    sumValues (dincr d k) = sumValues d + 1 := by
  unfold dincr
  induction d with
  | nil => simp [dinsert, dfind, sumValues]
  | cons hd tl ih =>
    obtain ⟨k', v'⟩ := hd
    by_cases h : k' = k
    · subst h
      simp [dinsert, dfind, sumValues]
      omega
    · simp only [dinsert, dfind, if_neg h] at ih ⊢
      simp [sumValues] at ih ⊢
      omega

theorem mem_dinsert {K V : Type} [DecidableEq K]
    (d : List (K × V)) (k : K) (v : V) (x : K × V) (h : x ∈ dinsert d k v) :
    x = (k, v) ∨ x ∈ d := by
  induction d with
  | nil => simpa [dinsert] using h
  | cons hd tl ih =>
    obtain ⟨k', v'⟩ := hd
    by_cases h1 : k' = k
    · simp only [dinsert, if_pos h1, List.mem_cons] at h
      rcases h with h | h
      · exact Or.inl h
      · exact Or.inr (List.mem_cons_of_mem _ h)
    · simp only [dinsert, if_neg h1, List.mem_cons] at h
      rcases h with h | h
      · exact Or.inr (h ▸ List.mem_cons_self _ _)
      · rcases ih h with h2 | h2
        · exact Or.inl h2
        · exact Or.inr (List.mem_cons_of_mem _ h2)

theorem dfind_dinsert_cases {K V : Type} [DecidableEq K]
    (d : List (K × V)) (k k2 : K) (v : V) (w : V)
    (h : dfind (dinsert d k v) k2 = some w) :
    (k2 = k ∧ w = v) ∨ dfind d k2 = some w := by
  by_cases h1 : k2 = k
  · subst h1
    rw [dfind_dinsert_self] at h
    exact Or.inl ⟨rfl, (Option.some_inj.mp h).symm⟩
  · rw [dfind_dinsert_ne _ _ _ _ h1] at h
    exact Or.inr h

/-! ## Aggregation lemmas -/

theorem stepLine_none {lookup_table : Lookup} {protocol_map : ProtoMap}
    (st : List (String × Nat) × List ((Int × String) × Nat)) (line : String)
    (h : parse_flow_log_line line protocol_map = none) :
    stepLine lookup_table protocol_map st line = st := by
  simp [stepLine, h]

theorem stepLine_some {lookup_table : Lookup} {protocol_map : ProtoMap}
    (st : List (String × Nat) × List ((Int × String) × Nat)) (line : String)
    (dstport : Int) (protocol_name : String)
    (h : parse_flow_log_line line protocol_map = some (dstport, protocol_name)) :
    stepLine lookup_table protocol_map st line =
      (dincr st.1 (tagOf lookup_table protocol_name dstport),
       dincr st.2 (dstport, protocol_name)) := by
  simp [stepLine, h]

theorem foldl_stepLine_sums (lookup_table : Lookup) (protocol_map : ProtoMap) :
    ∀ (lines : List String) (st : List (String × Nat) × List ((Int × String) × Nat)),
      sumValues (lines.foldl (stepLine lookup_table protocol_map) st).1
        = sumValues st.1
          + lines.countP (fun l => (parse_flow_log_line l protocol_map).isSome) ∧
      sumValues (lines.foldl (stepLine lookup_table protocol_map) st).2
        = sumValues st.2
          + lines.countP (fun l => (parse_flow_log_line l protocol_map).isSome) := by
  intro lines
  induction lines with
  | nil => simp
  | cons l ls ih =>
    intro st
    rw [List.foldl_cons]
    rcases hp : parse_flow_log_line l protocol_map with _ | ⟨dstport, protocol_name⟩
    · rw [stepLine_none st l hp]
      constructor
      · rw [(ih st).1, List.countP_cons]
        simp [hp]
      · rw [(ih st).2, List.countP_cons]
        simp [hp]
    · rw [stepLine_some st l dstport protocol_name hp]
      constructor
      · rw [(ih _).1, List.countP_cons]
        simp only [sumValues_dincr]
        simp [hp]
        omega
      · rw [(ih _).2, List.countP_cons]
        simp only [sumValues_dincr]
        simp [hp]
        omega

/-! ## Claim theorems -/

/-- C1: each log line that parses to a flow record increments exactly one
entry of `tag_counts` and exactly one entry of `port_protocol_counts`;
lines that do not parse increment neither; consequently the sum of all
values of each count map equals the number of successfully parsed lines. -/
theorem claim1_counts_invariant (protocol_map : ProtoMap) (lookup_table : Lookup)
    (lines : List String)
    (st : List (String × Nat) × List ((Int × String) × Nat)) :
    (∀ line, (parse_flow_log_line line protocol_map).isSome = true →
       IncrOne st.1 (stepLine lookup_table protocol_map st line).1 ∧
       IncrOne st.2 (stepLine lookup_table protocol_map st line).2) ∧
    (∀ line, parse_flow_log_line line protocol_map = none →
       stepLine lookup_table protocol_map st line = st) ∧
    sumValues (process_flow_log lines protocol_map lookup_table).1
      = lines.countP (fun l => (parse_flow_log_line l protocol_map).isSome) ∧
    sumValues (process_flow_log lines protocol_map lookup_table).2
      = lines.countP (fun l => (parse_flow_log_line l protocol_map).isSome) := by
  refine ⟨?_, ?_, ?_, ?_⟩
  · intro line hs
    rcases hp : parse_flow_log_line line protocol_map with _ | ⟨dstport, protocol_name⟩
    · rw [hp] at hs
      simp at hs
    · rw [stepLine_some st line dstport protocol_name hp]
      exact ⟨incrOne_dincr _ _, incrOne_dincr _ _⟩
  · intro line hp
    exact stepLine_none st line hp
  · have h := (foldl_stepLine_sums lookup_table protocol_map lines ([], [])).1
    simpa [process_flow_log, sumValues] using h
  · have h := (foldl_stepLine_sums lookup_table protocol_map lines ([], [])).2
    simpa [process_flow_log, sumValues] using h

/-- Witness for C1 on a concrete run: one valid line, one comment, one
short line; both totals are 1, an invalid line leaves the state unchanged,
and a valid line increments one entry of each map. -/
theorem claim1_counts_invariant_witness :
    sumValues (process_flow_log
        ["2 123 eni5 10.0.1.1 10.0.2.1 443 25 6 20 4000 1620140761 1620140821 ACCEPT OK",
         "# comment", "too short"]
        [((6 : Int), "tcp")] [("tcp", [((25 : Int), "sv_P1")])]).1 = 1 ∧
    sumValues (process_flow_log
        ["2 123 eni5 10.0.1.1 10.0.2.1 443 25 6 20 4000 1620140761 1620140821 ACCEPT OK",
         "# comment", "too short"]
        [((6 : Int), "tcp")] [("tcp", [((25 : Int), "sv_P1")])]).2 = 1 ∧
    stepLine [("tcp", [((25 : Int), "sv_P1")])] [((6 : Int), "tcp")] ([], []) "# comment"
      = ([], []) ∧
    IncrOne ([] : List (String × Nat))
      (stepLine [("tcp", [((25 : Int), "sv_P1")])] [((6 : Int), "tcp")] ([], [])
        "2 123 eni5 10.0.1.1 10.0.2.1 443 25 6 20 4000 1620140761 1620140821 ACCEPT OK").1 := by
  have h := claim1_counts_invariant [((6 : Int), "tcp")] [("tcp", [((25 : Int), "sv_P1")])]
    ["2 123 eni5 10.0.1.1 10.0.2.1 443 25 6 20 4000 1620140761 1620140821 ACCEPT OK",
     "# comment", "too short"] ([], [])
  refine ⟨h.2.2.1.trans (by decide), h.2.2.2.trans (by decide),
    h.2.1 "# comment" (by decide),
    (h.1 "2 123 eni5 10.0.1.1 10.0.2.1 443 25 6 20 4000 1620140761 1620140821 ACCEPT OK"
      (by decide)).1⟩

/-- C2: for a parsed record, the aggregator increments
`port_protocol_counts[(dstport, protocol_name)]` unconditionally, and
increments `tag_counts` at `lookup_table[protocol_name][dstport]` when both
keys are present and at `"Untagged"` when either key is missing. -/
theorem claim2_record_aggregation (lookup_table : Lookup) (protocol_map : ProtoMap)
    (st : List (String × Nat) × List ((Int × String) × Nat)) (line : String)
    (dstport : Int) (protocol_name : String)
    (h : parse_flow_log_line line protocol_map = some (dstport, protocol_name)) :
    stepLine lookup_table protocol_map st line
      = (dincr st.1 (tagOf lookup_table protocol_name dstport),
         dincr st.2 (dstport, protocol_name)) ∧
    (∀ inner tag, dfind lookup_table protocol_name = some inner →
       dfind inner dstport = some tag →
       tagOf lookup_table protocol_name dstport = tag) ∧
    (dfind lookup_table protocol_name = none →
       tagOf lookup_table protocol_name dstport = "Untagged") ∧
    (∀ inner, dfind lookup_table protocol_name = some inner →
       dfind inner dstport = none →
       tagOf lookup_table protocol_name dstport = "Untagged") := by
  refine ⟨stepLine_some st line dstport protocol_name h, ?_, ?_, ?_⟩
  · intro inner tag h1 h2
    simp [tagOf, h1, h2]
  · intro h1
    simp [tagOf, h1, dfind]
  · intro inner h1 h2
    simp [tagOf, h1, h2]

/-- Witness for C2 at a concrete parsed line, with the mapped tag, a
missing protocol key and a missing port key. -/
theorem claim2_record_aggregation_witness :
    stepLine [("tcp", [((25 : Int), "sv_P1")])] [((6 : Int), "tcp")] ([("x", 1)], [])
        "2 123 eni5 10.0.1.1 10.0.2.1 443 25 6 20 4000 1620140761 1620140821 ACCEPT OK"
      = (dincr [("x", 1)] (tagOf [("tcp", [((25 : Int), "sv_P1")])] "tcp" 25),
         dincr [] ((25 : Int), "tcp")) ∧
    tagOf [("tcp", [((25 : Int), "sv_P1")])] "tcp" 25 = "sv_P1" ∧
    tagOf [("tcp", [((25 : Int), "sv_P1")])] "udp" 25 = "Untagged" ∧
    tagOf [("tcp", [((25 : Int), "sv_P1")])] "tcp" 99 = "Untagged" := by
  have h := claim2_record_aggregation [("tcp", [((25 : Int), "sv_P1")])] [((6 : Int), "tcp")]
    ([("x", 1)], [])
    "2 123 eni5 10.0.1.1 10.0.2.1 443 25 6 20 4000 1620140761 1620140821 ACCEPT OK"
    25 "tcp" (by decide)
  have h2 := claim2_record_aggregation [("tcp", [((25 : Int), "sv_P1")])] [((6 : Int), "tcp")]
    ([("x", 1)], [])
    "2 123 eni5 10.0.1.1 10.0.2.1 443 99 6 20 4000 1620140761 1620140821 ACCEPT OK"
    99 "tcp" (by decide)
  refine ⟨h.1, h.2.1 [((25 : Int), "sv_P1")] "sv_P1" (by decide) (by decide), ?_, ?_⟩
  · exact (claim2_record_aggregation [("tcp", [((25 : Int), "sv_P1")])] [((17 : Int), "udp")]
      ([], []) "2 123 eni5 10.0.1.1 10.0.2.1 443 25 17 20 4000 1620140761 1620140821 ACCEPT OK"
      25 "udp" (by decide)).2.2.1 (by decide)
  · exact h2.2.2.2 [((25 : Int), "sv_P1")] (by decide) (by decide)

/-- C4: the parser trims the line first and yields no record when the
trimmed line is empty, starts with `#`, or has fewer than 14
whitespace-separated fields. -/
theorem claim4_skip_conditions (line : String) (protocol_map : ProtoMap)
    (h : pyStrip line = "" ∨ (pyStrip line).data.head? = some '#' ∨
         (splitWs (pyStrip line)).length < 14) :
    parse_flow_log_line line protocol_map = none := by
  unfold parse_flow_log_line
  by_cases h1 : pyStrip line = ""
  · simp [h1]
  · by_cases h2 : (pyStrip line).data.head? = some '#'
    · simp [h1, h2]
    · have h3 : (splitWs (pyStrip line)).length < 14 := by tauto
      simp [h1, h2, h3]

/-- Witness for C4: an all-blank line, a comment line and a 13-field line
are all skipped. -/
theorem claim4_skip_conditions_witness :
    parse_flow_log_line "   " [((6 : Int), "tcp")] = none ∧
    parse_flow_log_line "  # comment with many fields 1 2 3 4 5 6 7 8 9 10 11 12 13 14"
      [((6 : Int), "tcp")] = none ∧
    parse_flow_log_line "1 2 3 4 5 6 7 8 9 10 11 12 13" [((6 : Int), "tcp")] = none :=
  ⟨claim4_skip_conditions _ _ (Or.inl (by decide)),
   claim4_skip_conditions _ _ (Or.inr (Or.inl (by decide))),
   claim4_skip_conditions _ _ (Or.inr (Or.inr (by decide)))⟩

/-- C3 counterexample: a comment line with 14 whitespace-separated fields
whose fields at indices 6 and 7 both parse as integers.  The claim, read
over every log line with at least 14 fields, predicts the parser returns
`some (70, "tcp")` here; the code skips the line as a comment and returns
`none`. -/
theorem claim3_counterexample :
    (splitWs (pyStrip "# 1 2 3 4 5 70 6 8 9 10 11 12 13")).length = 14 ∧
    pyInt ((splitWs (pyStrip "# 1 2 3 4 5 70 6 8 9 10 11 12 13")).getD 6 "") = some 70 ∧
    pyInt ((splitWs (pyStrip "# 1 2 3 4 5 70 6 8 9 10 11 12 13")).getD 7 "") = some 6 ∧
    pyLower ((dfind [((6 : Int), "tcp")] 6).getD (toString (6 : Int))) = "tcp" ∧
    parse_flow_log_line "# 1 2 3 4 5 70 6 8 9 10 11 12 13" [((6 : Int), "tcp")] = none := by
  exact ⟨by decide, by decide, by decide, by decide, by decide⟩

/-- C3 amended: for every log line whose trimmed form does not start with
`#` and splits into at least 14 fields, the parser takes the destination
port from the integer parse of the field at index 6 and the protocol
number from the field at index 7, yields no record iff either parse fails,
and otherwise returns the pair of the port and the protocol name resolved
via the map (decimal string fallback), lowercased. -/
theorem claim3_field_extraction (line : String) (protocol_map : ProtoMap)
    (hc : (pyStrip line).data.head? ≠ some '#')
    (hn : 14 ≤ (splitWs (pyStrip line)).length) :
    (∀ dstport protocol_number,
       pyInt ((splitWs (pyStrip line)).getD 6 "") = some dstport →
       pyInt ((splitWs (pyStrip line)).getD 7 "") = some protocol_number →
       parse_flow_log_line line protocol_map
         = some (dstport,
             pyLower ((dfind protocol_map protocol_number).getD
               (toString protocol_number)))) ∧
    (parse_flow_log_line line protocol_map = none ↔
       pyInt ((splitWs (pyStrip line)).getD 6 "") = none ∨
       pyInt ((splitWs (pyStrip line)).getD 7 "") = none) := by
  have h1 : pyStrip line ≠ "" := by
    intro contra
    rw [contra] at hn
    simp [splitWs, splitWsChars] at hn
  have h14 : ¬ (splitWs (pyStrip line)).length < 14 := by omega
  constructor
  · intro dstport protocol_number hp6 hp7
    simp only [List.getD_eq_getElem?_getD] at hp6 hp7
    simp [parse_flow_log_line, h1, hc, h14, hp6, hp7]
  · rcases hp6 : pyInt ((splitWs (pyStrip line)).getD 6 "") with _ | d <;>
      rcases hp7 : pyInt ((splitWs (pyStrip line)).getD 7 "") with _ | n <;>
      [skip; skip; skip; skip] <;>
    · simp only [List.getD_eq_getElem?_getD] at hp6 hp7
      simp [parse_flow_log_line, h1, hc, h14, hp6, hp7]

/-- Witness for C3 (amended) at a concrete valid line and at a line whose
port field is not an integer. -/
theorem claim3_field_extraction_witness :
    parse_flow_log_line "2 123 eni5 10.0.1.1 10.0.2.1 443 25 6 20 4000 1620140761 1620140821 ACCEPT OK"
        [((6 : Int), "tcp")]
      = some (25, pyLower ((dfind [((6 : Int), "tcp")] 6).getD (toString (6 : Int)))) ∧
    parse_flow_log_line "2 123 eni5 10.0.1.1 10.0.2.1 443 xx 6 20 4000 1620140761 1620140821 ACCEPT OK"
        [((6 : Int), "tcp")] = none := by
  have ha := claim3_field_extraction
    "2 123 eni5 10.0.1.1 10.0.2.1 443 25 6 20 4000 1620140761 1620140821 ACCEPT OK"
    [((6 : Int), "tcp")] (by decide) (by decide)
  have hb := claim3_field_extraction
    "2 123 eni5 10.0.1.1 10.0.2.1 443 xx 6 20 4000 1620140761 1620140821 ACCEPT OK"
    [((6 : Int), "tcp")] (by decide) (by decide)
  exact ⟨ha.1 25 6 (by decide) (by decide), hb.2.mpr (Or.inl (by decide))⟩

/-- C7: the lookup-table loader discards the first row exactly when its
first field equals `"dstport"` case-insensitively and otherwise processes
it as data; the protocol-map loader discards the first row
unconditionally, the result depending only on the remaining rows. -/
theorem claim7_header_handling :
    (∀ f0 fs rest, pyLower f0 = "dstport" →
       load_lookup_table ((f0 :: fs) :: rest) = processLookupRows [] rest) ∧
    (∀ f0 fs rest, pyLower f0 ≠ "dstport" →
       load_lookup_table ((f0 :: fs) :: rest)
         = processLookupRows [] ((f0 :: fs) :: rest)) ∧
    (∀ r rest, load_protocal_map (r :: rest)
       = .ok (rest.foldl processProtoRow [])) := by
  refine ⟨?_, ?_, fun r rest => rfl⟩
  · intro f0 fs rest h
    simp [load_lookup_table, h]
  · intro f0 fs rest h
    simp [load_lookup_table, h]

/-- Witness for C7: a `DSTPORT` header row is discarded, a data-looking
first row is processed, and the protocol loader drops an arbitrary first
row. -/
theorem claim7_header_handling_witness :
    load_lookup_table [["DSTPORT", "protocol", "tag"], ["25", "tcp", "a"]]
      = processLookupRows [] [["25", "tcp", "a"]] ∧
    load_lookup_table [["25", "tcp", "a"]]
      = processLookupRows [] [["25", "tcp", "a"]] ∧
    load_protocal_map [["6", "tcp"], ["17", "udp"]]
      = .ok ([["17", "udp"]].foldl processProtoRow []) :=
  ⟨claim7_header_handling.1 "DSTPORT" ["protocol", "tag"] [["25", "tcp", "a"]] (by decide),
   claim7_header_handling.2.1 "25" ["tcp", "a"] [] (by decide),
   claim7_header_handling.2.2 ["6", "tcp"] [["17", "udp"]]⟩

/-- C5 counterexample: a lookup-table row with four fields.  The claim
says malformed rows are silently skipped and never escalated to fatal; the
unpacking `port_str, protocol, tag = row` raises `ValueError` on this row,
which reaches the catch-all handler and terminates the process with exit
status 1, and the following well-formed row is never processed. -/
theorem claim5_counterexample :
    load_lookup_table
        [["dstport", "protocol", "tag"], ["25", "tcp", "sv_P1", "extra"],
         ["23", "tcp", "sv_P2"]]
      = .error 1 := by
  rfl

/-- C5 amended: rows with too few fields or a non-integer numeric field
are silently skipped and processing continues, in both loaders; however a
lookup-table row with more than three fields raises an unpacking error
that the loader's catch-all turns into a fatal exit with status 1. -/
theorem processLookupRows_cons (m : Lookup) (row : List String)
    (rest : List (List String)) :
    processLookupRows m (row :: rest)
      = match processLookupRow m row with
        | .error e => .error e
        | .ok m2 => processLookupRows m2 rest := rfl

theorem claim5_malformed_rows :
    (∀ (m : Lookup) row rest, row.length < 3 →
       processLookupRows m (row :: rest) = processLookupRows m rest) ∧
    (∀ (m : Lookup) ps prot tag rest, pyInt (pyStrip ps) = none →
       processLookupRows m ([ps, prot, tag] :: rest) = processLookupRows m rest) ∧
    (∀ (m : Lookup) row rest, 3 < row.length →
       processLookupRows m (row :: rest) = .error 1) ∧
    (∀ (m : ProtoMap) row,
       row.length < 2 ∨ pyInt (pyStrip (row.getD 0 "")) = none →
       processProtoRow m row = m) := by
  refine ⟨?_, ?_, ?_, ?_⟩
  · intro m row rest h
    have hr : processLookupRow m row = .ok m := by
      unfold processLookupRow
      rw [if_pos h]
    rw [processLookupRows_cons, hr]
  · intro m ps prot tag rest h
    have hr : processLookupRow m [ps, prot, tag] = .ok m := by
      simp [processLookupRow, h]
    rw [processLookupRows_cons, hr]
  · intro m row rest h
    match row, h with
    | a :: b :: c :: d :: tl, _ =>
      have hr : processLookupRow m (a :: b :: c :: d :: tl) = .error 1 := rfl
      rw [processLookupRows_cons, hr]
  · intro m row h
    by_cases hl : row.length < 2
    · unfold processProtoRow
      rw [if_pos hl]
    · rcases h with h | h
      · exact absurd h hl
      · simp only [List.getD_eq_getElem?_getD] at h
        simp [processProtoRow, hl, h]

/-- Witness for C5 (amended): a short row, a non-integer port row, a
four-field row and two malformed protocol rows at concrete inputs. -/
theorem claim5_malformed_rows_witness :
    processLookupRows [] [["25", "tcp"], ["23", "tcp", "sv_P2"]]
      = processLookupRows [] [["23", "tcp", "sv_P2"]] ∧
    processLookupRows [] [["abc", "tcp", "sv_P1"], ["23", "tcp", "sv_P2"]]
      = processLookupRows [] [["23", "tcp", "sv_P2"]] ∧
    processLookupRows [] [["25", "tcp", "sv_P1", "extra"], ["23", "tcp", "sv_P2"]]
      = .error 1 ∧
    processProtoRow [] ["6"] = [] ∧
    processProtoRow [] ["six", "tcp"] = [] :=
  ⟨claim5_malformed_rows.1 [] ["25", "tcp"] [["23", "tcp", "sv_P2"]] (by decide),
   claim5_malformed_rows.2.1 [] "abc" "tcp" "sv_P1" [["23", "tcp", "sv_P2"]] (by decide),
   claim5_malformed_rows.2.2.1 [] ["25", "tcp", "sv_P1", "extra"] [["23", "tcp", "sv_P2"]]
     (by decide),
   claim5_malformed_rows.2.2.2 [] ["6"] (Or.inl (by decide)),
   claim5_malformed_rows.2.2.2 [] ["six", "tcp"] (Or.inr (by decide))⟩

/-- `processLookupRows` distributes over list append. -/
theorem processLookupRows_append (xs ys : List (List String)) :
    ∀ m : Lookup, processLookupRows m (xs ++ ys)
      = (processLookupRows m xs).bind (fun m1 => processLookupRows m1 ys) := by
  induction xs with
  | nil => intro m; rfl
  | cons row rest ih =>
    intro m
    rw [List.cons_append, processLookupRows_cons, processLookupRows_cons]
    rcases h : processLookupRow m row with e | m1
    · rfl
    · exact ih m1

/-- C8: appending a well-formed row to any row list makes the loader map
that row's key to that row's value — later rows overwrite earlier ones, in
both loaders. -/
theorem claim8_later_rows_overwrite :
    (∀ (m : Lookup) rows ps prot tag port m2,
       pyInt (pyStrip ps) = some port →
       processLookupRows m (rows ++ [[ps, prot, tag]]) = .ok m2 →
       ∃ inner, dfind m2 (pyLower (pyStrip prot)) = some inner ∧
         dfind inner port = some (pyStrip tag)) ∧
    (∀ (m : ProtoMap) rows row d, 2 ≤ row.length →
       pyInt (pyStrip (row.getD 0 "")) = some d →
       dfind ((rows ++ [row]).foldl processProtoRow m) d
         = some (pyLower (pyStrip (row.getD 1 "")))) := by
  constructor
  · intro m rows ps prot tag port m2 hport h
    rw [processLookupRows_append] at h
    rcases hx : processLookupRows m rows with e | m1
    · rw [hx] at h
      exact absurd h (by simp [Except.bind])
    · rw [hx] at h
      have h2 : processLookupRows m1 [[ps, prot, tag]] = .ok m2 := h
      have h3 : processLookupRow m1 [ps, prot, tag]
          = .ok (dinsert m1 (pyLower (pyStrip prot))
              (dinsert ((dfind m1 (pyLower (pyStrip prot))).getD []) port (pyStrip tag))) := by
        simp [processLookupRow, hport]
      unfold processLookupRows at h2
      rw [h3] at h2
      have h4 : m2 = dinsert m1 (pyLower (pyStrip prot))
          (dinsert ((dfind m1 (pyLower (pyStrip prot))).getD []) port (pyStrip tag)) := by
        have : processLookupRows (dinsert m1 (pyLower (pyStrip prot))
            (dinsert ((dfind m1 (pyLower (pyStrip prot))).getD []) port (pyStrip tag))) []
            = .ok m2 := h2
        unfold processLookupRows at this
        exact (Except.ok.inj this).symm
      subst h4
      exact ⟨_, dfind_dinsert_self _ _ _, dfind_dinsert_self _ _ _⟩
  · intro m rows row d hlen hd
    rw [List.foldl_append]
    show dfind (processProtoRow (rows.foldl processProtoRow m) row) d = _
    have hl : ¬ row.length < 2 := by omega
    simp only [processProtoRow, if_neg hl, hd]
    exact dfind_dinsert_self _ _ _

/-- Witness for C8: a later lookup row for (tcp, 25) and a later protocol
row for number 6 override the earlier ones. -/
theorem claim8_later_rows_overwrite_witness :
    (∃ inner, dfind [("tcp", [((25 : Int), "new")])] (pyLower (pyStrip "TCP "))
        = some inner ∧
      dfind inner 25 = some (pyStrip "new")) ∧
    dfind ([["6", "TCP"], ["6", "udp"]].foldl processProtoRow []) 6
      = some (pyLower (pyStrip "udp")) := by
  constructor
  · exact claim8_later_rows_overwrite.1 [] [["25", "tcp", "old"]] "25" "TCP " "new" 25
      [("tcp", [((25 : Int), "new")])] (by decide) (by rfl)
  · exact claim8_later_rows_overwrite.2 [] [["6", "TCP"]] ["6", "udp"] 6
      (by decide) (by decide)

/-- Inversion of one lookup-row step: either the row was skipped, or it
was a well-formed three-field row and its (protocol, port, tag) entry was
inserted. -/
theorem processLookupRow_cases (m : Lookup) (row : List String) (m1 : Lookup)
    (h : processLookupRow m row = .ok m1) :
    m1 = m ∨
    ∃ ps protc tag port, row = [ps, protc, tag] ∧
      pyInt (pyStrip ps) = some port ∧
      m1 = dinsert m (pyLower (pyStrip protc))
        (dinsert ((dfind m (pyLower (pyStrip protc))).getD []) port (pyStrip tag)) := by
  by_cases hl : row.length < 3
  · unfold processLookupRow at h
    rw [if_pos hl] at h
    exact Or.inl (Except.ok.inj h).symm
  · rcases row with _ | ⟨a, _ | ⟨b, _ | ⟨c, _ | ⟨d, tl⟩⟩⟩⟩
    · simp at hl
    · simp at hl
    · simp at hl
    · rcases hp : pyInt (pyStrip a) with _ | port
      · have heq : processLookupRow m [a, b, c] = .ok m := by
          simp [processLookupRow, hp]
        rw [heq] at h
        exact Or.inl (Except.ok.inj h).symm
      · have heq : processLookupRow m [a, b, c]
            = .ok (dinsert m (pyLower (pyStrip b))
                (dinsert ((dfind m (pyLower (pyStrip b))).getD []) port (pyStrip c))) := by
          simp [processLookupRow, hp]
        rw [heq] at h
        exact Or.inr ⟨a, b, c, port, rfl, hp, (Except.ok.inj h).symm⟩
    · have heq : processLookupRow m (a :: b :: c :: d :: tl) = .error 1 := rfl
      rw [heq] at h
      exact absurd h (by simp)

/-- Key provenance through the lookup-row loop: every port entry of the
result either comes from one of the processed rows or was already present
under the same outer key. -/
theorem processLookupRows_key_provenance :
    ∀ (rs : List (List String)) (m m2 : Lookup),
      processLookupRows m rs = .ok m2 →
      ∀ prot inner p, dfind m2 prot = some inner → p ∈ inner →
        (∃ row, row ∈ rs ∧ pyInt (pyStrip (row.getD 0 "")) = some p.1) ∨
        (∃ inner0 q, dfind m prot = some inner0 ∧ q ∈ inner0 ∧ q.1 = p.1) := by
  intro rs
  induction rs with
  | nil =>
    intro m m2 h prot inner p hfind hp
    have hm : m = m2 := Except.ok.inj h
    subst hm
    exact Or.inr ⟨inner, p, hfind, hp, rfl⟩
  | cons row rest ih =>
    intro m m2 h prot inner p hfind hp
    rw [processLookupRows_cons] at h
    rcases hr : processLookupRow m row with e | m1
    · rw [hr] at h
      exact absurd h (by simp)
    · rw [hr] at h
      rcases ih m1 m2 h prot inner p hfind hp with ⟨row2, hmem, hpy⟩ | hright
      · exact Or.inl ⟨row2, List.mem_cons_of_mem _ hmem, hpy⟩
      · obtain ⟨inner1, q, hfind1, hq, hkey⟩ := hright
        rcases processLookupRow_cases m row m1 hr with heq | hins
        · subst heq
          exact Or.inr ⟨inner1, q, hfind1, hq, hkey⟩
        · obtain ⟨ps, protc, tag, port, hrow, hpy, hm1⟩ := hins
          subst hm1
          rcases dfind_dinsert_cases _ _ _ _ _ hfind1 with ⟨hp1, hi1⟩ | hfound
          · subst hp1
            subst hi1
            rcases mem_dinsert _ _ _ _ hq with hq1 | hq0
            · refine Or.inl ⟨row, List.mem_cons_self _ _, ?_⟩
              have hpk : p.1 = port := by rw [← hkey, hq1]
              rw [hrow]
              show pyInt (pyStrip ps) = some p.1
              rw [hpk]
              exact hpy
            · rcases hm0 : dfind m (pyLower (pyStrip protc)) with _ | i
              · rw [hm0] at hq0
                simp at hq0
              · rw [hm0] at hq0
                exact Or.inr ⟨i, q, rfl, hq0, hkey⟩
          · exact Or.inr ⟨inner1, q, hfound, hq, hkey⟩

/-- Inversion of one protocol-row step: either the row was skipped, or its
(number, keyword) entry was inserted. -/
theorem processProtoRow_cases (m : ProtoMap) (row : List String) :
    processProtoRow m row = m ∨
    ∃ d, pyInt (pyStrip (row.getD 0 "")) = some d ∧
      processProtoRow m row = dinsert m d (pyLower (pyStrip (row.getD 1 ""))) := by
  unfold processProtoRow
  by_cases hl : row.length < 2
  · rw [if_pos hl]
    exact Or.inl rfl
  · rw [if_neg hl]
    rcases hp : pyInt (pyStrip (row.getD 0 "")) with _ | d
    · exact Or.inl rfl
    · exact Or.inr ⟨d, rfl, rfl⟩

/-- Key provenance through the protocol-row fold. -/
theorem foldl_protoRow_key_provenance :
    ∀ (rs : List (List String)) (m : ProtoMap) (e : Int × String),
      e ∈ rs.foldl processProtoRow m →
      (∃ row, row ∈ rs ∧ pyInt (pyStrip (row.getD 0 "")) = some e.1) ∨
      (∃ q, q ∈ m ∧ q.1 = e.1) := by
  intro rs
  induction rs with
  | nil =>
    intro m e he
    exact Or.inr ⟨e, he, rfl⟩
  | cons row rest ih =>
    intro m e he
    rw [List.foldl_cons] at he
    rcases ih (processProtoRow m row) e he with ⟨row2, hmem, hpy⟩ | ⟨q, hq, hkey⟩
    · exact Or.inl ⟨row2, List.mem_cons_of_mem _ hmem, hpy⟩
    · rcases processProtoRow_cases m row with heq | ⟨d, hpy, heq⟩
      · rw [heq] at hq
        exact Or.inr ⟨q, hq, hkey⟩
      · rw [heq] at hq
        rcases mem_dinsert _ _ _ _ hq with hq1 | hq0
        · refine Or.inl ⟨row, List.mem_cons_self _ _, ?_⟩
          have : q.1 = d := by rw [hq1]
          rw [← hkey, this]
          exact hpy
        · exact Or.inr ⟨q, hq0, hkey⟩

/-- C6 counterexample: rows with negative numeric fields are accepted, so
the loaders store negative port and protocol-number keys; the claim that
every stored key is non-negative is false. -/
theorem claim6_counterexample :
    load_lookup_table [["-5", "tcp", "t"]] = .ok [("tcp", [((-5 : Int), "t")])] ∧
    load_protocal_map [["h1", "h2"], ["-1", "neg"]] = .ok [((-1 : Int), "neg")] ∧
    (-5 : Int) < 0 ∧ (-1 : Int) < 0 :=
  ⟨rfl, rfl, by decide, by decide⟩

/-- C6 amended: every port key stored in the Lookup Table, and every
protocol-number key stored in the Protocol Map, is an integer obtained by
Python `int` parsing of the first field of some row of the input file — in
particular possibly negative, with no sign restriction imposed. -/
theorem claim6_keys_are_parsed_ints :
    (∀ rows m2, load_lookup_table rows = .ok m2 →
       ∀ prot inner p, dfind m2 prot = some inner → p ∈ inner →
         ∃ row, row ∈ rows ∧ pyInt (pyStrip (row.getD 0 "")) = some p.1) ∧
    (∀ rows m2, load_protocal_map rows = .ok m2 →
       ∀ e, e ∈ m2 →
         ∃ row, row ∈ rows ∧ pyInt (pyStrip (row.getD 0 "")) = some e.1) := by
  constructor
  · intro rows m2 h prot inner p hfind hp
    match rows with
    | [] => exact absurd h (by simp [load_lookup_table])
    | [] :: rest => exact absurd h (by simp [load_lookup_table])
    | (f0 :: fs) :: rest =>
      by_cases hdr : pyLower f0 = "dstport"
      · have h2 : processLookupRows [] rest = .ok m2 := by
          simpa [load_lookup_table, hdr] using h
        rcases processLookupRows_key_provenance rest [] m2 h2 prot inner p hfind hp with
          ⟨row, hmem, hpy⟩ | ⟨inner0, q, hfind0, _, _⟩
        · exact ⟨row, List.mem_cons_of_mem _ hmem, hpy⟩
        · exact absurd hfind0 (by simp [dfind])
      · have h2 : processLookupRows [] ((f0 :: fs) :: rest) = .ok m2 := by
          simpa [load_lookup_table, hdr] using h
        rcases processLookupRows_key_provenance ((f0 :: fs) :: rest) [] m2 h2 prot inner p
            hfind hp with ⟨row, hmem, hpy⟩ | ⟨inner0, q, hfind0, _, _⟩
        · exact ⟨row, hmem, hpy⟩
        · exact absurd hfind0 (by simp [dfind])
  · intro rows m2 h e he
    match rows with
    | [] => exact absurd h (by simp [load_protocal_map])
    | r :: rest =>
      have h2 : rest.foldl processProtoRow [] = m2 := by
        simpa [load_protocal_map] using h
      rcases foldl_protoRow_key_provenance rest [] e (h2 ▸ he) with
        ⟨row, hmem, hpy⟩ | ⟨q, hq, _⟩
      · exact ⟨row, List.mem_cons_of_mem _ hmem, hpy⟩
      · exact absurd hq (by simp)

/-- Witness for C6 (amended) on concrete files, exhibiting the rows the
stored keys were parsed from. -/
theorem claim6_keys_are_parsed_ints_witness :
    (∃ row, row ∈ [["25", "tcp", "a"]] ∧
       pyInt (pyStrip (row.getD 0 "")) = some (((25 : Int), "a") : Int × String).1) ∧
    (∃ row, row ∈ [["num", "kw"], ["6", "tcp"]] ∧
       pyInt (pyStrip (row.getD 0 "")) = some (((6 : Int), "tcp") : Int × String).1) :=
  ⟨claim6_keys_are_parsed_ints.1 [["25", "tcp", "a"]] [("tcp", [((25 : Int), "a")])]
     (by rfl) "tcp" [((25 : Int), "a")] ((25 : Int), "a") (by decide) (by decide),
   claim6_keys_are_parsed_ints.2 [["num", "kw"], ["6", "tcp"]] [((6 : Int), "tcp")]
     (by rfl) ((6 : Int), "tcp") (by decide)⟩

theorem tagLe_trans (a b c : String × Nat) (hab : tagLe a b = true)
    (hbc : tagLe b c = true) : tagLe a c = true := by
  simp only [tagLe, decide_eq_true_eq] at hab hbc ⊢
  exact le_trans hab hbc

theorem tagLe_total (a b : String × Nat) : (tagLe a b || tagLe b a) = true := by
  simp only [tagLe, Bool.or_eq_true, decide_eq_true_eq]
  exact le_total _ _

theorem ppLe_trans (a b c : (Int × String) × Nat) (hab : ppLe a b = true)
    (hbc : ppLe b c = true) : ppLe a c = true := by
  simp only [ppLe, decide_eq_true_eq] at hab hbc ⊢
  rcases hab with h1 | ⟨h1, h2⟩ <;> rcases hbc with h3 | ⟨h3, h4⟩
  · exact Or.inl (lt_trans h1 h3)
  · exact Or.inl (h3 ▸ h1)
  · exact Or.inl (h1 ▸ h3)
  · exact Or.inr ⟨h1.trans h3, le_trans h2 h4⟩

theorem ppLe_total (a b : (Int × String) × Nat) : (ppLe a b || ppLe b a) = true := by
  simp only [ppLe, Bool.or_eq_true, decide_eq_true_eq]
  rcases lt_trichotomy a.1.1 b.1.1 with h | h | h
  · exact Or.inl (Or.inl h)
  · rcases le_total a.1.2 b.1.2 with h2 | h2
    · exact Or.inl (Or.inr ⟨h, h2⟩)
    · exact Or.inr (Or.inr ⟨h.symm, h2⟩)
  · exact Or.inr (Or.inl h)

/-- C9: the report consists of the fixed tag-section header lines, one
`<tag>,<count>` line per tag sorted ascending by the tag compared
case-insensitively, a blank line, the fixed port/protocol-section header
lines, and one `<port>,<protocol>,<count>` line per pair sorted ascending
by port and then by protocol compared as a string. -/
theorem claim9_report_format (tag_counts : List (String × Nat))
    (port_protocol_counts : List ((Int × String) × Nat)) :
    ∃ (ts : List (String × Nat)) (ps : List ((Int × String) × Nat)),
      write_output tag_counts port_protocol_counts
        = ["Tag Counts:", "Tag, Count"]
          ++ ts.map (fun x => x.1 ++ "," ++ toString x.2)
          ++ [""]
          ++ ["Port/Protocol Combination Counts:", "Port,Protocol,Count"]
          ++ ps.map (fun x => toString x.1.1 ++ "," ++ x.1.2 ++ "," ++ toString x.2) ∧
      ts.Perm tag_counts ∧
      ts.Pairwise (fun a b => pyLower a.1 ≤ pyLower b.1) ∧
      ps.Perm port_protocol_counts ∧
      ps.Pairwise (fun a b =>
        a.1.1 < b.1.1 ∨ (a.1.1 = b.1.1 ∧ a.1.2 ≤ b.1.2)) := by
  refine ⟨tag_counts.mergeSort tagLe, port_protocol_counts.mergeSort ppLe,
    rfl, List.mergeSort_perm _ _, ?_, List.mergeSort_perm _ _, ?_⟩
  · have h := List.sorted_mergeSort tagLe_trans tagLe_total tag_counts
    exact h.imp (fun hab => by simpa [tagLe] using hab)
  · have h := List.sorted_mergeSort ppLe_trans ppLe_total port_protocol_counts
    exact h.imp (fun hab => by simpa [ppLe] using hab)

/-- C10: on a file with no rows at all, the unconditional read of the first
row fails and the loader's catch-all handler terminates the process with
exit status 1 (modelled by `.error 1`) instead of returning an empty
mapping. -/
theorem claim10_empty_file_fatal :
    load_lookup_table [] = .error 1 ∧ load_protocal_map [] = .error 1 :=
  ⟨rfl, rfl⟩

end FlowLogParser
